import Mathlib

/-!
Verification of the memory reconciliation, tree patching, instantiation
scheduling and secondary-boot preparation logic of the Xilinx Zynq board
composition code (hw/arm/xilinx_zynq.c).  Each C function that the
properties concern is shallowly embedded as an executable Lean definition;
machine integers are modelled as Nat with explicit wrap-around where the
C code can overflow.
-/

/-- 2^64, the modulus of the 64-bit ram_addr_t / uint64_t arithmetic used by
the memory reconciler. -/
def U64 : Nat := 18446744073709551616

/-- Unsigned 64-bit subtraction `a - b`, wrapping modulo 2^64 exactly as the
C expression does on uint64 operands. -/
def u64sub (a b : Nat) : Nat := (a % U64 + (U64 - b % U64)) % U64

/-- Modelled from the spec: the architectural low-memory ceiling
XLNX_ZYNQMP_MAX_LOW_RAM_SIZE, defined in hw/arm/xlnx-zynqmp.h which is not
under src/; the spec tests fix it at 2 GiB. -/
def XLNX_ZYNQMP_MAX_LOW_RAM_SIZE : Nat := 0x80000000

/-- Modelled from the spec: the fixed high base address
XLNX_ZYNQMP_HIGH_RAM_START, defined in hw/arm/xlnx-zynqmp.h which is not
under src/; only its fixedness matters to the claims. -/
def XLNX_ZYNQMP_HIGH_RAM_START : Nat := 0x800000000

/-- A synthesized RAM region: the name, base and size passed to
memory_region_init_ram / memory_region_add_subregion. -/
structure MemRegion where
  name : String
  base : Nat
  size : Nat
deriving Repr, DecidableEq

/-- Outcome of the memory reconciler: the regions synthesized and mapped (in
creation order), the value assigned to the global ram_size in the else
branch, and the value passed to qemu_opt_set_number for the "memory" option
size. -/
structure MemReconcileResult where
  regions : List MemRegion
  ramSizeGlobal : Option Nat
  memoryOptReset : Option Nat
deriving Repr, DecidableEq

/-- The memory reconciler of arm_generic_fdt_init (lines 572-604):
memory_max is the maximum amount of DDR already described by top level
memory nodes (the spec calls it P); ram_size is machine->ram_size (the
spec calls it R).  Subtractions are 64-bit and wrap, as in C. -/
def reconcileMemory (memory_max ram_size : Nat) : MemReconcileResult :=
  if memory_max < ram_size then
    if XLNX_ZYNQMP_MAX_LOW_RAM_SIZE < ram_size then
      let ddr_low_size := u64sub XLNX_ZYNQMP_MAX_LOW_RAM_SIZE memory_max
      let ddr_high_size := u64sub ram_size XLNX_ZYNQMP_MAX_LOW_RAM_SIZE
      let highRegions :=
        [MemRegion.mk "ddr-ram-high" XLNX_ZYNQMP_HIGH_RAM_START ddr_high_size]
      if ddr_low_size ≠ 0 then
        MemReconcileResult.mk
          (highRegions ++ [MemRegion.mk "ddr-ram-low" memory_max ddr_low_size])
          none none
      else
        MemReconcileResult.mk highRegions none none
    else
      let ddr_low_size := u64sub ram_size memory_max
      if ddr_low_size ≠ 0 then
        MemReconcileResult.mk
          [MemRegion.mk "ddr-ram-low" memory_max ddr_low_size] none none
      else
        MemReconcileResult.mk [] none none
  else
    MemReconcileResult.mk [] (some memory_max) (some memory_max)

/-- A device tree property value: a string or a list of cells.  Cells are
modelled by their numeric value; the big-endian encoding of cells inside
the flattened tree is an externally managed representation detail. -/
inductive FdtVal where
  | str (s : String)
  | cells (cs : List Nat)
deriving Repr, DecidableEq

/-- A device tree node: its path (as a list of path segments) and its
properties (name, value), in order. -/
structure FdtNode where
  path : List String
  props : List (String × FdtVal)
deriving Repr, DecidableEq

/-- A device tree: the list of its nodes. -/
abbrev Fdt := List FdtNode

/-- Look a property up on the node with the given path. -/
def getProp (fdt : Fdt) (path : List String) (name : String) :
    Option FdtVal :=
  match fdt.find? (fun n => n.path == path) with
  | some n => (n.props.find? (fun pr => pr.1 == name)).map (fun pr => pr.2)
  | none => none

/-- qemu_fdt_getprop for a string property: some value when present and a
string, as used for the compatible lookup of the first QSPI child. -/
def getPropStr (fdt : Fdt) (path : List String) (name : String) :
    Option String :=
  match getProp fdt path name with
  | some (FdtVal.str s) => some s
  | _ => none

/-- qemu_fdt_getprop_cell with default 0: cell idx of the named property,
0 when the node, the property or the cell is absent. -/
def getPropCell (fdt : Fdt) (path : List String) (name : String)
    (idx : Nat) : Nat :=
  match getProp fdt path name with
  | some (FdtVal.cells cs) => cs.getD idx 0
  | _ => 0

/-- fdt_setprop / qemu_fdt_setprop_*: set a property on the node with the
given path, replacing an existing property of that name or appending a new
one; nodes with other paths are untouched. -/
def setProp (fdt : Fdt) (path : List String) (name : String) (v : FdtVal) :
    Fdt :=
  fdt.map (fun n =>
    if n.path == path then
      FdtNode.mk n.path
        (if n.props.any (fun pr => pr.1 == name) then
          n.props.map (fun pr => if pr.1 == name then (name, v) else pr)
        else n.props ++ [(name, v)])
    else n)

/-- qemu_fdt_add_subnode: append a fresh node with no properties. -/
def addNode (fdt : Fdt) (path : List String) : Fdt :=
  fdt ++ [FdtNode.mk path []]

/-- Whether a node with exactly this path is present. -/
def hasNode (fdt : Fdt) (path : List String) : Bool :=
  fdt.any (fun n => n.path == path)

/-- Whether p is a (not necessarily proper) path-segment-wise ancestor
of q. -/
def isUnderPath (p q : List String) : Bool := q.take p.length == p

/-- fdt_del_node: remove the node with the given path together with its
subtree. -/
def delNode (fdt : Fdt) (path : List String) : Fdt :=
  fdt.filter (fun n => !(isUnderPath path n.path))

/-- Whether the node carries the given compatible string, as matched by
qemu_devtree_node_by_compatible. -/
def compatibleMatches (n : FdtNode) (compat : String) : Bool :=
  match (n.props.find? (fun pr => pr.1 == "compatible")).map
      (fun pr => pr.2) with
  | some (FdtVal.str s) => s == compat
  | _ => false

/-- qemu_devtree_node_by_compatible: path of the first node carrying the
compatible string. -/
def findNodeByCompatible (fdt : Fdt) (compat : String) :
    Option (List String) :=
  (fdt.find? (fun n => compatibleMatches n compat)).map (fun n => n.path)

/-- The name of a node: its last path segment. -/
def nodeNameOf (n : FdtNode) : String := n.path.getLastD ""

/-- Modelled from the spec: the external tree helper
qemu_devtree_get_node_by_name (fdt_generic_util.c, not under src/) locates
the first node with the given name; modelled as matching the last path
segment. -/
def findNodeByName (fdt : Fdt) (nm : String) : Option (List String) :=
  (fdt.find? (fun n => nodeNameOf n == nm)).map (fun n => n.path)

/-- Whether child is a depth-1 child path of parent, as selected by
qemu_devtree_get_children(fdt, parent, 1). -/
def isChildPath (parent child : List String) : Bool :=
  child.length == parent.length + 1 && child.take parent.length == parent

/-- qemu_devtree_get_children with depth 1: the paths of the direct
children of the node at parent, in tree order. -/
def childrenOf (fdt : Fdt) (parent : List String) : List (List String) :=
  (fdt.filter (fun n => isChildPath parent n.path)).map (fun n => n.path)

/-- zynq7000_usb_nuke_phy (lines 304-313): if a node with compatible
"xlnx,ps7-usb-1.00.a" exists, force its dr_mode property to "host";
otherwise leave the tree untouched. -/
def zynq7000_usb_nuke_phy (fdt : Fdt) : Fdt :=
  match findNodeByCompatible fdt "xlnx,ps7-usb-1.00.a" with
  | some p => setProp fdt p "dr_mode" (FdtVal.str "host")
  | none => fdt

/-- The disable-gic quirk of arm_generic_fdt_init (lines 466-471): if a
node named "interrupt-controller" exists, mark it
disable-linux-gic-init; otherwise leave the tree untouched. -/
def disableGicQuirk (fdt : Fdt) : Fdt :=
  match findNodeByName fdt "interrupt-controller" with
  | some p => setProp fdt p "disable-linux-gic-init" (FdtVal.cells [1])
  | none => fdt

/-- The name of the synthesized dummy QSPI flash node. -/
def dummySeg : String := "ps7-qspi-dummy@0"

/-- zynq7000_qspi_flash_node_clone (lines 344-406): searches for a
zynq-qspi controller; if found, reads is-dual, sets #bus-cells to 1, and
when a first child flash node with a compatible string exists, pins that
child to bus 1 (reg = 0,0) and, in dual mode, clones a dummy flash node
(preserving only the compatible value) attached to bus 0 (reg = 0,1).
Returns the path of the cloned node (when created) and the mutated tree. -/
def zynq7000_qspi_flash_node_clone (fdt : Fdt) :
    Option (List String) × Fdt :=
  match findNodeByCompatible fdt "xlnx,zynq-qspi-1.0" with
  | none => (none, fdt)
  | some qspi_node_path =>
      let qspi_is_dual := getPropCell fdt qspi_node_path "is-dual" 0
      let fdt1 := setProp fdt qspi_node_path "#bus-cells" (FdtVal.cells [1])
      let qspi_new_node_path := qspi_node_path ++ [dummySeg]
      match childrenOf fdt1 qspi_node_path with
      | [] => (none, fdt1)
      | c0 :: _ =>
          let compat_str := getPropStr fdt1 c0 "compatible"
          let fdt2 := setProp fdt1 c0 "reg" (FdtVal.cells [0, 0])
          match compat_str with
          | none => (none, fdt2)
          | some cs =>
              if qspi_is_dual == 1 then
                let fdt3 := addNode fdt2 qspi_new_node_path
                let fdt4 :=
                  setProp fdt3 qspi_new_node_path "compatible" (FdtVal.str cs)
                let fdt5 :=
                  setProp fdt4 qspi_new_node_path "reg" (FdtVal.cells [0, 1])
                (some qspi_new_node_path, fdt5)
              else (none, fdt2)

/-- The cleanup of arm_generic_fdt_init (lines 622-627), applied to the
result of zynq7000_qspi_flash_node_clone after the builder pass: when a
clone name was returned, delete that node (one fdt_del_node call);
otherwise do nothing.  The second component counts delete calls. -/
def qspiDummyCleanup (r : Option (List String) × Fdt) : Fdt × Nat :=
  match r.1 with
  | some p => (delNode r.2 p, 1)
  | none => (r.2, 0)

/-- One observable step of the MDIO connect task. -/
inductive MdioEvent where
  | publish (path : String)
  | yieldCtl
  | addChild (parent child : String)
  | setLink (parent child : String)
deriving Repr, DecidableEq

/-- The wait loop of zynq7000_mdio_phy_connect (lines 327-330): hasInst k
tells whether the parent path has a registered instance after k yields;
fuel bounds the number of loop iterations examined.  Returns the yield
events of a completed wait, or none when the wait does not finish within
fuel iterations. -/
def mdioWait (hasInst : Nat → Bool) : Nat → Nat → Option (List MdioEvent)
  | 0, _ => none
  | fuel + 1, k =>
      if hasInst k then some []
      else (mdioWait hasInst fuel (k + 1)).map
        (fun tr => MdioEvent.yieldCtl :: tr)

/-- zynq7000_mdio_phy_connect (lines 315-342) as an event trace: it first
publishes its own instance (fdt_init_set_opaque), then yields until the
parent path has an instance, then attaches itself to the parent object
(object_property_add_child, object_property_set_link).  The parent path
is obtained by the external qemu_devtree_getparent and is passed in. -/
def zynq7000_mdio_phy_connect (nodePath parentPath : String)
    (hasInst : Nat → Bool) (fuel : Nat) : Option (List MdioEvent) :=
  (mdioWait hasInst fuel 0).map (fun waits =>
    MdioEvent.publish nodePath ::
      (waits ++ [MdioEvent.addChild parentPath nodePath,
                 MdioEvent.setLink parentPath nodePath]))

/-- The publication discipline claimed by the spec for a task trace: every
publication of the instance of node happens only after the attachment to
the parent is complete. -/
def publishedOnlyAfterAttach (tr : List MdioEvent) (node parent : String) :
    Prop :=
  ∀ i : Fin tr.length, tr.get i = MdioEvent.publish node →
    ∃ j : Fin tr.length, j.val < i.val ∧
      tr.get j = MdioEvent.setLink parent node

/-- SMP_BOOT_ADDR (line 280): fixed secondary entry address. -/
def SMP_BOOT_ADDR : Nat := 0xfffffff0

/-- SMP_BOOTREG_ADDR (line 282). -/
def SMP_BOOTREG_ADDR : Nat := 0xfffffffc

/-- The initial contents of the process-global zynq_smpboot array
(lines 287-290): a wfi instruction and a branch back to it. -/
def zynq_smpboot_init : List Nat := [0xe320f003, 0xeafffffd]

/-- 32-bit byte swap on a word below 2^32. -/
def bswap32 (w : Nat) : Nat :=
  (w % 256) * 16777216 + (w / 256 % 256) * 65536 +
    (w / 65536 % 256) * 256 + (w / 16777216 % 256)

/-- tswap32: swap the word exactly when target byte order differs from the
host byte order. -/
def tswap32 (swapNeeded : Bool) (w : Nat) : Nat :=
  if swapNeeded then bswap32 w else w

/-- Little-endian byte serialization of a 32-bit word. -/
def bytes32le (w : Nat) : List Nat :=
  [w % 256, w / 256 % 256, w / 65536 % 256, w / 16777216 % 256]

/-- Big-endian byte serialization of a 32-bit word. -/
def bytes32be (w : Nat) : List Nat :=
  [w / 16777216 % 256, w / 65536 % 256, w / 256 % 256, w % 256]

/-- In-memory representation of a uint32 on the host. -/
def hostBytes32 (hostBig : Bool) (w : Nat) : List Nat :=
  if hostBig then bytes32be w else bytes32le w

/-- Byte order expected by the target for a 32-bit instruction word. -/
def targetBytes32 (targetBig : Bool) (w : Nat) : List Nat :=
  if targetBig then bytes32be w else bytes32le w

/-- A blob deposited by rom_add_blob_fixed: name, raw bytes, address. -/
structure RomBlob where
  name : String
  bytes : List Nat
  addr : Nat
deriving Repr, DecidableEq

/-- arm_write_secondary_boot (lines 292-302): byte-swaps every word of the
process-global zynq_smpboot array in place with tswap32, then deposits the
raw host-memory bytes of the array at SMP_BOOT_ADDR.  Takes the current
contents of the global array and returns its new contents together with
the deposited blob. -/
def arm_write_secondary_boot (hostBig targetBig : Bool)
    (smpboot : List Nat) : List Nat × RomBlob :=
  let swapped := smpboot.map (tswap32 (hostBig != targetBig))
  (swapped,
   RomBlob.mk "smpboot" ((swapped.map (hostBytes32 hostBig)).flatten)
     SMP_BOOT_ADDR)

/-- The boot descriptor fields of arm_generic_fdt_binfo that concern the
secondary boot protocol (lines 615-617). -/
structure SmpBootInfo where
  write_secondary_boot_installed : Bool
  smp_loader_start : Nat
  smp_bootreg_addr : Nat
deriving Repr, DecidableEq

/-- The assignment of lines 615-617 of arm_generic_fdt_init. -/
def arm_generic_fdt_binfo_smp : SmpBootInfo :=
  SmpBootInfo.mk true SMP_BOOT_ADDR SMP_BOOTREG_ADDR

/-- The memory-sizing slice of the legacy board init zynq_init
(lines 122-227) together with the boot descriptor fields it sets.  The
diagnostics field collects every message the traced lines print; the
clamp branch (lines 153-156) prints nothing. -/
structure ZynqInitResult where
  ext_ram_base : Nat
  ext_ram_size : Nat
  ocm_base : Nat
  ocm_size : Nat
  binfo_ram_size : Nat
  binfo_nb_cpus : Nat
  binfo_board_id : Nat
  binfo_loader_start : Nat
  diagnostics : List String
deriving Repr, DecidableEq

/-- zynq_init restricted to its RAM sizing and boot-info assignments: the
requested ram_size is silently clamped to 2 GiB (lines 153-156), the
external RAM region is created with the clamped size at address 0
(lines 158-161), and zynq_binfo.ram_size receives the same clamped value
(line 219). -/
def zynq_init_mem (ram_size_req : Nat) : ZynqInitResult :=
  let ram_size :=
    if 0x80000000 < ram_size_req then 0x80000000 else ram_size_req
  ZynqInitResult.mk 0 ram_size 0xFFFC0000 262144 ram_size 1 0xd32 0 []

/-- A concrete sample tree: a dual-mode zynq-qspi controller with one
child flash node carrying a compatible string, and no USB node and no
interrupt controller. -/
def qspiSampleFdt : Fdt :=
  [FdtNode.mk ["amba", "spi@e000d000"]
    [("compatible", FdtVal.str "xlnx,zynq-qspi-1.0"),
     ("is-dual", FdtVal.cells [1])],
   FdtNode.mk ["amba", "spi@e000d000", "flash@0"]
    [("compatible", FdtVal.str "n25q128")]]

theorem u64sub_of_le (a b : Nat) (hba : b ≤ a) (ha : a < U64) :
    u64sub a b = a - b := by
  have hb : b < U64 := lt_of_le_of_lt hba ha
  unfold u64sub
  rw [Nat.mod_eq_of_lt ha, Nat.mod_eq_of_lt hb]
  have h1 : a + (U64 - b) = (a - b) + U64 := by omega
  rw [h1, Nat.add_mod_right, Nat.mod_eq_of_lt (by omega)]

/-- C1: if the described memory P is below the low-memory ceiling and the
request R exceeds P, the reconciler synthesizes a low region of size
min(R - P, C - P) at base P, and the remaining shortfall, when nonzero,
becomes a high region at XLNX_ZYNQMP_HIGH_RAM_START. -/
theorem C1_low_high_split (P R : Nat)
    (hPC : P < XLNX_ZYNQMP_MAX_LOW_RAM_SIZE) (hPR : P < R) (hR : R < U64) :
    (reconcileMemory P R).regions =
      (if min (R - P) (XLNX_ZYNQMP_MAX_LOW_RAM_SIZE - P) < R - P then
        [MemRegion.mk "ddr-ram-high" XLNX_ZYNQMP_HIGH_RAM_START
          ((R - P) - min (R - P) (XLNX_ZYNQMP_MAX_LOW_RAM_SIZE - P))]
      else []) ++
      [MemRegion.mk "ddr-ram-low" P
        (min (R - P) (XLNX_ZYNQMP_MAX_LOW_RAM_SIZE - P))] := by
  have hCU : XLNX_ZYNQMP_MAX_LOW_RAM_SIZE < U64 := by decide
  simp only [reconcileMemory]
  rw [if_pos hPR]
  by_cases hRC : XLNX_ZYNQMP_MAX_LOW_RAM_SIZE < R
  · rw [if_pos hRC, u64sub_of_le _ _ (le_of_lt hPC) hCU,
      u64sub_of_le _ _ (le_of_lt hRC) hR]
    have hlow : XLNX_ZYNQMP_MAX_LOW_RAM_SIZE - P ≠ 0 := by omega
    rw [if_pos hlow]
    have hmin : min (R - P) (XLNX_ZYNQMP_MAX_LOW_RAM_SIZE - P) =
        XLNX_ZYNQMP_MAX_LOW_RAM_SIZE - P := by omega
    rw [hmin, if_pos (show XLNX_ZYNQMP_MAX_LOW_RAM_SIZE - P < R - P by omega)]
    have hsz : (R - P) - (XLNX_ZYNQMP_MAX_LOW_RAM_SIZE - P) =
        R - XLNX_ZYNQMP_MAX_LOW_RAM_SIZE := by omega
    rw [hsz]
  · rw [if_neg hRC, u64sub_of_le _ _ (le_of_lt hPR) hR]
    have hlow : R - P ≠ 0 := by omega
    rw [if_pos hlow]
    have hmin : min (R - P) (XLNX_ZYNQMP_MAX_LOW_RAM_SIZE - P) = R - P := by
      omega
    rw [hmin, if_neg (show ¬ R - P < R - P by omega)]
    simp

/-- Closed instance of C1 at the spec's own test: P = 512 MiB, R = 3 GiB
gives a low region of 1536 MiB at 512 MiB and a high region of 1 GiB at
XLNX_ZYNQMP_HIGH_RAM_START. -/
theorem C1_low_high_split_witness :
    (reconcileMemory 0x20000000 0xC0000000).regions =
      [MemRegion.mk "ddr-ram-high" XLNX_ZYNQMP_HIGH_RAM_START 0x40000000,
       MemRegion.mk "ddr-ram-low" 0x20000000 0x60000000] := by
  have h := C1_low_high_split 0x20000000 0xC0000000 (by decide) (by decide)
    (by decide)
  rw [h]
  decide

/-- C3: when the requested size does not exceed the described amount, the
reconciler synthesizes nothing, adopts P as the effective ram size and
reconfigures the "memory" machine option to P. -/
theorem C3_description_wins (P R : Nat) (h : R ≤ P) :
    reconcileMemory P R = MemReconcileResult.mk [] (some P) (some P) := by
  unfold reconcileMemory
  rw [if_neg (Nat.not_lt.mpr h)]

/-- C2 as stated is false: with P = 3 GiB (at or above the 2 GiB ceiling)
and R = 4 GiB the code does not turn the whole shortfall D = 1 GiB into a
single high region; the 64-bit subtraction C - P wraps, so a huge low
region is synthesized as well and the high region has size R - C = 2 GiB. -/
theorem C2_counterexample_low_region_underflow :
    XLNX_ZYNQMP_MAX_LOW_RAM_SIZE ≤ 0xC0000000 ∧
    (0xC0000000 : Nat) < 0x100000000 ∧
    (reconcileMemory 0xC0000000 0x100000000).regions ≠
      [MemRegion.mk "ddr-ram-high" XLNX_ZYNQMP_HIGH_RAM_START 0x40000000] ∧
    (reconcileMemory 0xC0000000 0x100000000).regions =
      [MemRegion.mk "ddr-ram-high" XLNX_ZYNQMP_HIGH_RAM_START 0x80000000,
       MemRegion.mk "ddr-ram-low" 0xC0000000 0xFFFFFFFFC0000000] := by
  decide

/-- C2 amended: when the described memory P equals the low-memory ceiling
exactly and R exceeds P, the entire shortfall R - P becomes a single high
region at XLNX_ZYNQMP_HIGH_RAM_START and no low region is created. -/
theorem C2_high_only_at_ceiling (P R : Nat)
    (hPC : P = XLNX_ZYNQMP_MAX_LOW_RAM_SIZE) (hPR : P < R) (hR : R < U64) :
    (reconcileMemory P R).regions =
      [MemRegion.mk "ddr-ram-high" XLNX_ZYNQMP_HIGH_RAM_START (R - P)] := by
  subst hPC
  simp only [reconcileMemory]
  rw [if_pos hPR, if_pos hPR,
    u64sub_of_le _ _ (le_refl _) (by decide),
    u64sub_of_le _ _ (le_of_lt hPR) hR]
  rw [if_neg (show ¬ XLNX_ZYNQMP_MAX_LOW_RAM_SIZE -
    XLNX_ZYNQMP_MAX_LOW_RAM_SIZE ≠ 0 by omega)]

/-- Closed instance of the amended C2: P = 2 GiB, R = 3 GiB gives a single
high region of 1 GiB and no low region. -/
theorem C2_high_only_at_ceiling_witness :
    (reconcileMemory 0x80000000 0xC0000000).regions =
      [MemRegion.mk "ddr-ram-high" XLNX_ZYNQMP_HIGH_RAM_START 0x40000000] := by
  have h := C2_high_only_at_ceiling 0x80000000 0xC0000000 (by decide)
    (by decide) (by decide)
  rw [h]

/-- Closed instance of C3 at the spec's own test: P = 2 GiB, R = 1 GiB
gives no synthesis, an effective size of 2 GiB, and the "memory" option
reset to 2 GiB. -/
theorem C3_description_wins_witness :
    reconcileMemory 0x80000000 0x40000000 =
      MemReconcileResult.mk [] (some 0x80000000) (some 0x80000000) :=
  C3_description_wins 0x80000000 0x40000000 (by decide)

theorem mdioWait_all_yield (hasInst : Nat → Bool) :
    ∀ fuel k waits, mdioWait hasInst fuel k = some waits →
      ∀ e ∈ waits, e = MdioEvent.yieldCtl := by
  intro fuel
  induction fuel with
  | zero => intro k waits h e he; simp [mdioWait] at h
  | succ n ih =>
      intro k waits h e he
      simp only [mdioWait] at h
      by_cases hk : hasInst k
      · rw [if_pos hk] at h
        injection h with h2
        subst h2
        simp at he
      · rw [if_neg hk] at h
        rcases Option.map_eq_some'.mp h with ⟨tr, htr, rfl⟩
        rcases List.mem_cons.mp he with rfl | hmem
        · rfl
        · exact ih (k + 1) tr htr e hmem

/-- C4 is false on the code: the MDIO connect task publishes its instance
as its very first action, before attaching itself to its logical parent;
in the completed trace the publish event has index 0 and no setLink
precedes it. -/
theorem C4_counterexample_publish_first :
    zynq7000_mdio_phy_connect "mdio" "gem" (fun _ => true) 1 =
      some [MdioEvent.publish "mdio", MdioEvent.addChild "gem" "mdio",
            MdioEvent.setLink "gem" "mdio"] ∧
    ¬ publishedOnlyAfterAttach
        [MdioEvent.publish "mdio", MdioEvent.addChild "gem" "mdio",
         MdioEvent.setLink "gem" "mdio"] "mdio" "gem" := by
  constructor
  · rfl
  · intro hcl
    rcases hcl ⟨0, by decide⟩ rfl with ⟨j, hj, hje⟩
    exact absurd hj (Nat.not_lt_zero _)

/-- C4 amended: every completed run of the MDIO connect task publishes its
instance exactly once, but publication is its first action - before
waiting for and attaching to its logical parent - so the handle is
visible (intentionally, for child registration) before the attachment
work completes; the attach events follow the publication. -/
theorem C4_publish_then_attach (node parent : String)
    (hasInst : Nat → Bool) (fuel : Nat) (tr : List MdioEvent)
    (h : zynq7000_mdio_phy_connect node parent hasInst fuel = some tr) :
    tr.head? = some (MdioEvent.publish node) ∧
    tr.count (MdioEvent.publish node) = 1 ∧
    MdioEvent.addChild parent node ∈ tr ∧
    MdioEvent.setLink parent node ∈ tr := by
  rcases Option.map_eq_some'.mp h with ⟨waits, hw, rfl⟩
  have hy := mdioWait_all_yield hasInst fuel 0 waits hw
  refine ⟨rfl, ?_, ?_, ?_⟩
  · rw [List.count_cons_self]
    have hnot : MdioEvent.publish node ∉
        waits ++ [MdioEvent.addChild parent node,
                  MdioEvent.setLink parent node] := by
      intro hmem
      rcases List.mem_append.mp hmem with hmem | hmem
      · exact absurd (hy _ hmem) (by simp)
      · rcases List.mem_cons.mp hmem with heq | hmem
        · exact MdioEvent.noConfusion heq
        · rcases List.mem_cons.mp hmem with heq | hmem
          · exact MdioEvent.noConfusion heq
          · simp at hmem
    rw [List.count_eq_zero.mpr hnot]
  · exact List.mem_cons_of_mem _ (List.mem_append_right _ (by simp))
  · exact List.mem_cons_of_mem _ (List.mem_append_right _ (by simp))

/-- Closed instance of the amended C4 on a one-iteration run. -/
theorem C4_publish_then_attach_witness :
    ([MdioEvent.publish "mdio", MdioEvent.addChild "gem" "mdio",
      MdioEvent.setLink "gem" "mdio"].head? =
        some (MdioEvent.publish "mdio")) ∧
    ([MdioEvent.publish "mdio", MdioEvent.addChild "gem" "mdio",
      MdioEvent.setLink "gem" "mdio"].count (MdioEvent.publish "mdio") = 1) ∧
    MdioEvent.addChild "gem" "mdio" ∈
      [MdioEvent.publish "mdio", MdioEvent.addChild "gem" "mdio",
       MdioEvent.setLink "gem" "mdio"] ∧
    MdioEvent.setLink "gem" "mdio" ∈
      [MdioEvent.publish "mdio", MdioEvent.addChild "gem" "mdio",
       MdioEvent.setLink "gem" "mdio"] :=
  C4_publish_then_attach "mdio" "gem" (fun _ => true) 1
    [MdioEvent.publish "mdio", MdioEvent.addChild "gem" "mdio",
     MdioEvent.setLink "gem" "mdio"] rfl

/-- C5: the code does not detect an unresolvable dependency; when the
parent path never has a registered instance the MDIO connect wait loop
never terminates, for every iteration bound, instead of failing with a
fatal configuration error as the spec requires. -/
theorem C5_unresolved_wait_never_terminates (node parent : String)
    (fuel : Nat) :
    zynq7000_mdio_phy_connect node parent (fun _ => false) fuel = none := by
  have hw : ∀ f k, mdioWait (fun _ => false) f k = none := by
    intro f
    induction f with
    | zero => intro k; rfl
    | succ n ih => intro k; simp [mdioWait, ih]
  simp [zynq7000_mdio_phy_connect, hw]

theorem setProp_path_map (fdt : Fdt) (q : List String) (nm : String)
    (v : FdtVal) :
    (setProp fdt q nm v).map FdtNode.path = fdt.map FdtNode.path := by
  induction fdt with
  | nil => rfl
  | cons n t ih =>
      simp only [setProp, List.map_cons] at ih ⊢
      by_cases h : n.path == q
      · rw [if_pos h]; rw [ih]
      · rw [if_neg h]; rw [ih]

theorem hasNode_eq_any_path (fdt : Fdt) (p : List String) :
    hasNode fdt p = (fdt.map FdtNode.path).any (fun q => q == p) := by
  induction fdt with
  | nil => rfl
  | cons n t ih =>
      simp only [hasNode, List.map_cons, List.any_cons] at ih ⊢
      rw [ih]

theorem hasNode_setProp (fdt : Fdt) (q : List String) (nm : String)
    (v : FdtVal) (p : List String) :
    hasNode (setProp fdt q nm v) p = hasNode fdt p := by
  rw [hasNode_eq_any_path, hasNode_eq_any_path, setProp_path_map]

theorem hasNode_addNode_self (fdt : Fdt) (p : List String) :
    hasNode (addNode fdt p) p = true := by
  simp [hasNode, addNode]

theorem hasNode_delNode (fdt : Fdt) (p : List String) :
    hasNode (delNode fdt p) p = false := by
  rw [Bool.eq_false_iff]
  intro h
  rw [hasNode, List.any_eq_true] at h
  obtain ⟨n, hn, hp⟩ := h
  rw [delNode, List.mem_filter] at hn
  rcases hn with ⟨-, hkeep⟩
  rw [beq_iff_eq] at hp
  have hu : isUnderPath p n.path = true := by
    rw [hp]
    simp [isUnderPath, List.take_length]
  simp [hu] at hkeep

theorem clone_spec (fdt : Fdt) :
    (zynq7000_qspi_flash_node_clone fdt).1 = none ∨
    ∃ f p cs, zynq7000_qspi_flash_node_clone fdt =
      (some p,
       setProp (setProp (addNode f p) p "compatible" (FdtVal.str cs)) p
         "reg" (FdtVal.cells [0, 1])) := by
  simp only [zynq7000_qspi_flash_node_clone]
  split
  · exact Or.inl rfl
  · split
    · exact Or.inl rfl
    · split
      · exact Or.inl rfl
      · split
        · exact Or.inr ⟨_, _, _, rfl⟩
        · exact Or.inl rfl

/-- C6: whenever the patcher synthesizes the dummy QSPI flash helper node,
the clone is present in the patched tree, the cleanup after the builder
pass deletes it with exactly one fdt_del_node call, and the node is gone
from the final tree; when no helper was synthesized, no removal is
attempted and the tree is left exactly as the patcher produced it. -/
theorem C6_clone_removed_exactly_once (fdt : Fdt) :
    (∀ p, (zynq7000_qspi_flash_node_clone fdt).1 = some p →
      hasNode (zynq7000_qspi_flash_node_clone fdt).2 p = true ∧
      (qspiDummyCleanup (zynq7000_qspi_flash_node_clone fdt)).2 = 1 ∧
      hasNode (qspiDummyCleanup (zynq7000_qspi_flash_node_clone fdt)).1 p
        = false) ∧
    ((zynq7000_qspi_flash_node_clone fdt).1 = none →
      (qspiDummyCleanup (zynq7000_qspi_flash_node_clone fdt)).2 = 0 ∧
      (qspiDummyCleanup (zynq7000_qspi_flash_node_clone fdt)).1 =
        (zynq7000_qspi_flash_node_clone fdt).2) := by
  rcases clone_spec fdt with h | ⟨f, p0, cs, h⟩
  · refine ⟨?_, ?_⟩
    · intro p hp
      rw [h] at hp
      exact Option.noConfusion hp
    · intro _
      simp [qspiDummyCleanup, h]
  · refine ⟨?_, ?_⟩
    · intro p hp
      rw [h] at hp
      simp only [] at hp
      injection hp with hp
      subst hp
      rw [h]
      refine ⟨?_, rfl, ?_⟩
      · dsimp only
        rw [hasNode_setProp, hasNode_setProp, hasNode_addNode_self]
      · dsimp only [qspiDummyCleanup]
        exact hasNode_delNode _ _
    · intro h0
      rw [h] at h0
      exact Option.noConfusion h0

/-- Closed instance of C6 on a dual-mode QSPI controller with one flash
child: the dummy node is created, deleted exactly once, and absent from
the final tree. -/
theorem C6_clone_removed_exactly_once_witness :
    hasNode (zynq7000_qspi_flash_node_clone qspiSampleFdt).2
      ["amba", "spi@e000d000", dummySeg] = true ∧
    (qspiDummyCleanup (zynq7000_qspi_flash_node_clone qspiSampleFdt)).2
      = 1 ∧
    hasNode
      (qspiDummyCleanup (zynq7000_qspi_flash_node_clone qspiSampleFdt)).1
      ["amba", "spi@e000d000", dummySeg] = false :=
  (C6_clone_removed_exactly_once qspiSampleFdt).1
    ["amba", "spi@e000d000", dummySeg] (by decide)

/-- C7: on the first call (the fresh process-global array), the boot
preparer deposits exactly the two instructions 0xe320f003 (wfi) and
0xeafffffd (branch back) in target byte order - 8 bytes in all - at the
fixed secondary entry address 0xFFFFFFF0, and the boot descriptor records
that same address as the secondary boot loader start. -/
theorem C7_secondary_boot_blob (hostBig targetBig : Bool) :
    (arm_write_secondary_boot hostBig targetBig zynq_smpboot_init).2 =
      RomBlob.mk "smpboot"
        (targetBytes32 targetBig 0xe320f003 ++
          targetBytes32 targetBig 0xeafffffd)
        SMP_BOOT_ADDR ∧
    (arm_write_secondary_boot hostBig targetBig
      zynq_smpboot_init).2.bytes.length = 8 ∧
    SMP_BOOT_ADDR = 0xfffffff0 ∧
    arm_generic_fdt_binfo_smp.smp_loader_start = SMP_BOOT_ADDR := by
  cases hostBig <;> cases targetBig <;>
    exact ⟨by decide, by decide, rfl, rfl⟩

/-- C10: arm_write_secondary_boot byte-swaps the process-global array in
place; on a target whose byte order differs from the host, the first call
changes the stored words, and a second call deposits the raw un-swapped
words in host order, which is not the target byte order and differs from
the first deposit - the operation is not idempotent. -/
theorem C10_second_call_unswapped (hostBig : Bool) :
    (arm_write_secondary_boot hostBig (!hostBig) zynq_smpboot_init).1 ≠
      zynq_smpboot_init ∧
    (arm_write_secondary_boot hostBig (!hostBig)
      (arm_write_secondary_boot hostBig (!hostBig)
        zynq_smpboot_init).1).2.bytes =
      hostBytes32 hostBig 0xe320f003 ++ hostBytes32 hostBig 0xeafffffd ∧
    (arm_write_secondary_boot hostBig (!hostBig)
      (arm_write_secondary_boot hostBig (!hostBig)
        zynq_smpboot_init).1).2.bytes ≠
      targetBytes32 (!hostBig) 0xe320f003 ++
        targetBytes32 (!hostBig) 0xeafffffd ∧
    (arm_write_secondary_boot hostBig (!hostBig)
      (arm_write_secondary_boot hostBig (!hostBig)
        zynq_smpboot_init).1).2 ≠
      (arm_write_secondary_boot hostBig (!hostBig) zynq_smpboot_init).2 := by
  cases hostBig <;> decide

/-- C8: when the optional quirk targets are absent - no node with
compatible "xlnx,ps7-usb-1.00.a" and no node named
"interrupt-controller" - both quirk rules leave the tree unchanged. -/
theorem C8_absent_quirk_targets_skipped (fdt : Fdt)
    (husb : ∀ n ∈ fdt, compatibleMatches n "xlnx,ps7-usb-1.00.a" = false)
    (hgic : ∀ n ∈ fdt, (nodeNameOf n == "interrupt-controller") = false) :
    zynq7000_usb_nuke_phy fdt = fdt ∧ disableGicQuirk fdt = fdt := by
  have h1 : findNodeByCompatible fdt "xlnx,ps7-usb-1.00.a" = none := by
    rw [findNodeByCompatible, Option.map_eq_none', List.find?_eq_none]
    intro n hn
    simp [husb n hn]
  have h2 : findNodeByName fdt "interrupt-controller" = none := by
    rw [findNodeByName, Option.map_eq_none', List.find?_eq_none]
    intro n hn
    simp [hgic n hn]
  rw [zynq7000_usb_nuke_phy, disableGicQuirk, h1, h2]
  exact ⟨rfl, rfl⟩

/-- Closed instance of C8 on a tree that has neither quirk target. -/
theorem C8_absent_quirk_targets_skipped_witness :
    zynq7000_usb_nuke_phy qspiSampleFdt = qspiSampleFdt ∧
    disableGicQuirk qspiSampleFdt = qspiSampleFdt :=
  C8_absent_quirk_targets_skipped qspiSampleFdt (by decide) (by decide)

/-- C9: the legacy zynq_init silently clamps any requested RAM size above
2 GiB to exactly 0x80000000 - both the external RAM region and the boot
descriptor ram_size get the clamped value and no diagnostic is emitted -
while a request of at most 2 GiB is used unchanged. -/
theorem C9_ram_clamp (r : Nat) :
    (0x80000000 < r →
      zynq_init_mem r =
        ZynqInitResult.mk 0 0x80000000 0xFFFC0000 262144 0x80000000 1
          0xd32 0 []) ∧
    (r ≤ 0x80000000 →
      zynq_init_mem r =
        ZynqInitResult.mk 0 r 0xFFFC0000 262144 r 1 0xd32 0 []) := by
  constructor
  · intro h
    simp [zynq_init_mem, h]
  · intro h
    simp [zynq_init_mem, Nat.not_lt.mpr h]

/-- Closed instance of C9: a 3 GiB request is clamped to 2 GiB, a 1 GiB
request is used unchanged. -/
theorem C9_ram_clamp_witness :
    zynq_init_mem 0xC0000000 =
      ZynqInitResult.mk 0 0x80000000 0xFFFC0000 262144 0x80000000 1
        0xd32 0 [] ∧
    zynq_init_mem 0x40000000 =
      ZynqInitResult.mk 0 0x40000000 0xFFFC0000 262144 0x40000000 1
        0xd32 0 [] :=
  ⟨(C9_ram_clamp 0xC0000000).1 (by decide),
   (C9_ram_clamp 0x40000000).2 (by decide)⟩
